import Mathlib

/-!
Verification development for the transcriber job-processing subsystem.

Definitions are shallow embeddings of the Python sources:
  `backend/app/models/enums.py`    (JobStatus, valid_transitions)
  `backend/app/models/job.py`      (Job, Job.update_status)
  `backend/app/routes/jobs.py`     (cancel_job)
  `backend/app/services/progress_service.py` (estimate_processing_time)
  `backend/tasks/base.py`          (should_retry, retry policy)
  `backend/app/services/graceful_redis.py` (GracefulRedisService set/get)
  `backend/app/routes/realtime.py` (room subscription and fan-out)

Wall-clock instants are modelled as natural numbers (job timestamps) or
rationals (key-value-store time), and Python `datetime.utcnow()` calls
become an explicit `now` parameter.
-/

/-- Embeds `JobStatus` of `backend/app/models/enums.py`. -/
inductive JobStatus where
  | uploaded
  | queued
  | processing
  | generating_output
  | completed
  | failed
  | cancelled
deriving DecidableEq, Repr

/-- Embeds `JobStatus.valid_transitions` (enums.py lines 17-28): the
allowed-next-states table. -/
def JobStatus.valid_transitions : JobStatus → List JobStatus
  | .uploaded => [.queued, .failed, .cancelled]
  | .queued => [.processing, .failed, .cancelled]
  | .processing => [.generating_output, .failed, .cancelled]
  | .generating_output => [.completed, .failed]
  | .completed => []
  | .failed => []
  | .cancelled => []

/-- Embeds `JobStatus.can_transition_to` (enums.py lines 30-33). -/
def JobStatus.can_transition_to (s t : JobStatus) : Bool :=
  (s.valid_transitions).contains t

/-- Embeds the `Job` row of `backend/app/models/job.py` (the columns of the
`jobs` table).  Timestamps are `Option Nat` when nullable. -/
structure Job where
  id : Nat
  job_id : String
  filename : String
  original_filename : String
  file_size : Nat
  file_format : String
  file_path : Option String
  status : JobStatus
  progress : Nat
  error_message : Option String
  processing_phase : Option String
  estimated_completion : Option Nat
  queue_position : Option Nat
  can_cancel : Bool
  created_at : Nat
  started_at : Option Nat
  completed_at : Option Nat
  expires_at : Nat
  duration : Option ℚ
  sample_rate : Option Nat
  channels : Option Nat
  language : Option String
  enable_diarization : Bool
  model : Option String
deriving DecidableEq, Repr

/-- Embeds `Job.update_status` (job.py lines 96-115).  The Python method
mutates `self` and returns a `bool`; here it returns the success flag and
the updated job.  `now` stands for `datetime.utcnow()` at the call.
A supplied `errorMessage` is stored only when truthy (non-empty), matching
`if error_message:`. -/
def Job.update_status (j : Job) (now : Nat) (new_status : JobStatus)
    (errorMessage : Option String := none) : Bool × Job :=
  if j.status.can_transition_to new_status = false then
    (false, j)
  else
    let j1 := { j with status := new_status }
    let j2 :=
      if new_status = .processing ∧ j1.started_at = none then
        { j1 with started_at := some now }
      else if new_status = .completed ∨ new_status = .failed then
        let jc := { j1 with completed_at := some now }
        if new_status = .completed then { jc with progress := 100 } else jc
      else j1
    let j3 :=
      match errorMessage with
      | some s => if s = "" then j2 else { j2 with error_message := some s }
      | none => j2
    (true, j3)

/-- Embeds `cancel_job` of `backend/app/routes/jobs.py` (lines 443-499),
restricted to its effect on the job row: the not-found and HTTP-encoding
parts are out of scope.  Returns whether cancellation succeeded and the
resulting job. -/
def requestCancel (j : Job) (now : Nat) : Bool × Job :=
  if j.can_cancel = false ∨ j.status = .completed ∨ j.status = .failed
      ∨ j.status = .cancelled then
    (false, j)
  else
    let r := j.update_status now .cancelled (some "Job cancelled by user")
    if r.fst then
      (true, { r.snd with can_cancel := false, progress := 0 })
    else
      (false, j)

/-- A single call to the guarded transition function: the wall-clock time,
the target status and the optional error message. -/
structure TransitionCall where
  now : Nat
  target : JobStatus
  err : Option String
deriving DecidableEq, Repr

/-- Applies a sequence of `update_status` calls to a job, keeping the
resulting job of each call (the returned flag is discarded). -/
def runCalls (j : Job) (cs : List TransitionCall) : Job :=
  cs.foldl (fun jc c => (jc.update_status c.now c.target c.err).snd) j

/-- A concrete freshly created job, used by witnesses: the defaults of the
column definitions of job.py (status `uploaded`, progress 0, `can_cancel`
true, nullable fields absent). -/
def freshJob : Job :=
  { id := 1
    job_id := "j-1"
    filename := "a.wav"
    original_filename := "a.wav"
    file_size := 1048576
    file_format := "wav"
    file_path := some "/tmp/a.wav"
    status := .uploaded
    progress := 0
    error_message := none
    processing_phase := none
    estimated_completion := none
    queue_position := none
    can_cancel := true
    created_at := 0
    started_at := none
    completed_at := none
    expires_at := 86400
    duration := none
    sample_rate := none
    channels := none
    language := some "auto"
    enable_diarization := true
    model := some "base" }

/-! ### Characterization lemmas for `Job.update_status` -/

/-- When the transition table forbids the move, `update_status` returns
`false` and the job is unchanged. -/
theorem update_status_invalid (j : Job) (now : Nat) (B : JobStatus) (err : Option String)
    (h : JobStatus.can_transition_to j.status B = false) :
    j.update_status now B err = (false, j) := by
  unfold Job.update_status
  rw [h]
  simp

/-- When the transition table allows the move, `update_status` returns
`true`. -/
theorem update_status_fst (j : Job) (now : Nat) (B : JobStatus) (err : Option String)
    (h : JobStatus.can_transition_to j.status B = true) :
    (j.update_status now B err).fst = true := by
  unfold Job.update_status
  rw [h]
  simp

/-- A successful `update_status` sets the status to the target. -/
theorem update_status_status (j : Job) (now : Nat) (B : JobStatus) (err : Option String)
    (h : JobStatus.can_transition_to j.status B = true) :
    (j.update_status now B err).snd.status = B := by
  unfold Job.update_status
  rw [h]
  cases err <;> simp <;> split_ifs <;> rfl

/-- A successful `update_status` stamps `started_at` exactly when entering
`processing` with `started_at` still unset. -/
theorem update_status_started_at (j : Job) (now : Nat) (B : JobStatus) (err : Option String)
    (h : JobStatus.can_transition_to j.status B = true) :
    (j.update_status now B err).snd.started_at =
      if B = .processing ∧ j.started_at = none then some now else j.started_at := by
  unfold Job.update_status
  rw [h]
  cases err <;> simp <;> split_ifs <;> rfl

/-- A successful `update_status` stamps `completed_at` exactly when the
target is `completed` or `failed`. -/
theorem update_status_completed_at (j : Job) (now : Nat) (B : JobStatus) (err : Option String)
    (h : JobStatus.can_transition_to j.status B = true) :
    (j.update_status now B err).snd.completed_at =
      if B = .completed ∨ B = .failed then some now else j.completed_at := by
  unfold Job.update_status
  rw [h]
  cases err <;> simp <;> split_ifs <;> simp_all

/-- A successful `update_status` forces progress to 100 exactly when the
target is `completed`. -/
theorem update_status_progress (j : Job) (now : Nat) (B : JobStatus) (err : Option String)
    (h : JobStatus.can_transition_to j.status B = true) :
    (j.update_status now B err).snd.progress =
      if B = .completed then 100 else j.progress := by
  unfold Job.update_status
  rw [h]
  cases err <;> simp <;> split_ifs <;> simp_all

/-- A successful `update_status` stores the error message exactly when a
truthy (non-empty) one is supplied. -/
theorem update_status_error_message (j : Job) (now : Nat) (B : JobStatus) (err : Option String)
    (h : JobStatus.can_transition_to j.status B = true) :
    (j.update_status now B err).snd.error_message =
      match err with
      | some s => if s = "" then j.error_message else some s
      | none => j.error_message := by
  unfold Job.update_status
  rw [h]
  cases err <;> simp <;> split_ifs <;> rfl

/-- Success of `update_status` is equivalent to the transition table
allowing the move. -/
theorem update_status_fst_iff (j : Job) (now : Nat) (B : JobStatus) (err : Option String) :
    (j.update_status now B err).fst = true ↔
      JobStatus.can_transition_to j.status B = true := by
  constructor
  · intro hok
    by_contra hc
    rw [Bool.not_eq_true] at hc
    rw [update_status_invalid j now B err hc] at hok
    exact absurd hok (by simp)
  · exact update_status_fst j now B err

/-- A successful `update_status` leaves every field other than `status`,
`started_at`, `completed_at`, `progress` and `error_message` unchanged. -/
theorem update_status_frame (j : Job) (now : Nat) (B : JobStatus) (err : Option String)
    (h : JobStatus.can_transition_to j.status B = true) :
    (j.update_status now B err).snd.id = j.id ∧
    (j.update_status now B err).snd.job_id = j.job_id ∧
    (j.update_status now B err).snd.filename = j.filename ∧
    (j.update_status now B err).snd.original_filename = j.original_filename ∧
    (j.update_status now B err).snd.file_size = j.file_size ∧
    (j.update_status now B err).snd.file_format = j.file_format ∧
    (j.update_status now B err).snd.file_path = j.file_path ∧
    (j.update_status now B err).snd.processing_phase = j.processing_phase ∧
    (j.update_status now B err).snd.estimated_completion = j.estimated_completion ∧
    (j.update_status now B err).snd.queue_position = j.queue_position ∧
    (j.update_status now B err).snd.can_cancel = j.can_cancel ∧
    (j.update_status now B err).snd.created_at = j.created_at ∧
    (j.update_status now B err).snd.expires_at = j.expires_at ∧
    (j.update_status now B err).snd.duration = j.duration ∧
    (j.update_status now B err).snd.sample_rate = j.sample_rate ∧
    (j.update_status now B err).snd.channels = j.channels ∧
    (j.update_status now B err).snd.language = j.language ∧
    (j.update_status now B err).snd.enable_diarization = j.enable_diarization ∧
    (j.update_status now B err).snd.model = j.model := by
  unfold Job.update_status
  rw [h]
  cases err <;> simp <;> split_ifs <;> simp_all

/-! ### Claims about the job state machine -/

/-- C1: for every pair (A, B) in the transition table, `update_status` on a
job in state A with target B returns true and sets the status to B; for
every pair outside the table it returns false and leaves every field of the
job unchanged. -/
theorem C1_transition_table (j : Job) (now : Nat) (err : Option String) (B : JobStatus) :
    (JobStatus.can_transition_to j.status B = true →
      (j.update_status now B err).fst = true ∧
      (j.update_status now B err).snd.status = B) ∧
    (JobStatus.can_transition_to j.status B = false →
      j.update_status now B err = (false, j)) :=
  ⟨fun h => ⟨update_status_fst j now B err h, update_status_status j now B err h⟩,
   fun h => update_status_invalid j now B err h⟩

/-- Witness for C1: the fresh job accepts `uploaded → queued` and rejects
`uploaded → processing` unchanged. -/
theorem C1_witness :
    (freshJob.update_status 5 .queued none).fst = true ∧
    (freshJob.update_status 5 .queued none).snd.status = .queued ∧
    freshJob.update_status 5 .processing none = (false, freshJob) :=
  ⟨((C1_transition_table freshJob 5 none .queued).1 (by decide)).1,
   ((C1_transition_table freshJob 5 none .queued).1 (by decide)).2,
   (C1_transition_table freshJob 5 none .processing).2 (by decide)⟩

/-- C2 counterexample: a successful transition into the terminal state
`cancelled` (from `queued`, at time 7) does not record `completed_at`,
refuting the claim that every terminal target records the completion
timestamp. -/
theorem C2_counterexample :
    (({ freshJob with status := .queued } : Job).update_status 7 .cancelled none).fst = true ∧
    (({ freshJob with status := .queued } : Job).update_status 7 .cancelled none).snd.completed_at
      = none := by
  constructor <;> rfl

/-- C2 amended: on a successful transition, `completed_at` is recorded at
the call time exactly for the targets `completed` and `failed` (not for
`cancelled`); the target `completed` forces progress to 100; a supplied
non-empty error message is stored. -/
theorem C2_amended (j : Job) (now : Nat) (B : JobStatus) (err : Option String)
    (hok : (j.update_status now B err).fst = true) :
    ((B = .completed ∨ B = .failed) →
      (j.update_status now B err).snd.completed_at = some now) ∧
    (B = .completed → (j.update_status now B err).snd.progress = 100) ∧
    (∀ s, err = some s → s ≠ "" →
      (j.update_status now B err).snd.error_message = some s) := by
  have hcan : JobStatus.can_transition_to j.status B = true :=
    (update_status_fst_iff j now B err).1 hok
  refine ⟨fun hB => ?_, fun hB => ?_, fun s hs hne => ?_⟩
  · rw [update_status_completed_at j now B err hcan, if_pos hB]
  · rw [update_status_progress j now B err hcan, if_pos hB]
  · rw [update_status_error_message j now B err hcan, hs]
    simp [hne]

/-- Witness for C2 amended: completing from `generating_output` at time 9
with message "boom" stamps `completed_at`, forces progress 100 and stores
the message. -/
theorem C2_witness :
    (({ freshJob with status := .generating_output } : Job).update_status 9 .completed
        (some "boom")).snd.completed_at = some 9 ∧
    (({ freshJob with status := .generating_output } : Job).update_status 9 .completed
        (some "boom")).snd.progress = 100 ∧
    (({ freshJob with status := .generating_output } : Job).update_status 9 .completed
        (some "boom")).snd.error_message = some "boom" :=
  ⟨(C2_amended { freshJob with status := .generating_output } 9 .completed (some "boom")
      (by decide)).1 (Or.inl rfl),
   (C2_amended { freshJob with status := .generating_output } 9 .completed (some "boom")
      (by decide)).2.1 rfl,
   (C2_amended { freshJob with status := .generating_output } 9 .completed (some "boom")
      (by decide)).2.2 "boom" rfl (by decide)⟩

/-- C8: cancelling a `completed` job is rejected and leaves the job
unchanged; cancelling a `queued` job with `can_cancel` still true succeeds
and leaves status `cancelled`, `can_cancel` false and progress 0. -/
theorem C8_request_cancel (j : Job) (now : Nat) :
    (j.status = .completed → requestCancel j now = (false, j)) ∧
    (j.status = .queued → j.can_cancel = true →
      (requestCancel j now).fst = true ∧
      (requestCancel j now).snd.status = .cancelled ∧
      (requestCancel j now).snd.can_cancel = false ∧
      (requestCancel j now).snd.progress = 0) := by
  constructor
  · intro h
    unfold requestCancel
    rw [if_pos (Or.inr (Or.inl h))]
  · intro hq hc
    have hcan : JobStatus.can_transition_to j.status .cancelled = true := by
      rw [hq]; rfl
    have hguard : ¬ (j.can_cancel = false ∨ j.status = .completed ∨ j.status = .failed
        ∨ j.status = .cancelled) := by
      simp [hq, hc]
    have hfst := update_status_fst j now .cancelled (some "Job cancelled by user") hcan
    have hst := update_status_status j now .cancelled (some "Job cancelled by user") hcan
    unfold requestCancel
    rw [if_neg hguard]
    simp [hfst, hst]

/-- Witness for C8: a completed job rejects cancellation; a queued job is
cancelled with `can_cancel` false and progress 0. -/
theorem C8_witness :
    requestCancel { freshJob with status := .completed } 3
      = (false, { freshJob with status := .completed }) ∧
    (requestCancel { freshJob with status := .queued } 3).fst = true ∧
    (requestCancel { freshJob with status := .queued } 3).snd.status = .cancelled ∧
    (requestCancel { freshJob with status := .queued } 3).snd.can_cancel = false ∧
    (requestCancel { freshJob with status := .queued } 3).snd.progress = 0 :=
  ⟨(C8_request_cancel { freshJob with status := .completed } 3).1 rfl,
   (C8_request_cancel { freshJob with status := .queued } 3).2 rfl rfl⟩

theorem runCalls_nil (j : Job) : runCalls j [] = j := rfl

theorem runCalls_cons (j : Job) (c : TransitionCall) (cs : List TransitionCall) :
    runCalls j (c :: cs) = runCalls ((j.update_status c.now c.target c.err).snd) cs := rfl

/-- Once `started_at` is set, no `update_status` call changes it. -/
theorem update_status_keeps_started (j : Job) (now : Nat) (B : JobStatus) (err : Option String)
    (t : Nat) (h : j.started_at = some t) :
    (j.update_status now B err).snd.started_at = some t := by
  cases hcan : JobStatus.can_transition_to j.status B
  · rw [update_status_invalid j now B err hcan]; exact h
  · rw [update_status_started_at j now B err hcan, h]; simp

/-- Once `started_at` is set, no sequence of calls changes it. -/
theorem runCalls_keeps_started (cs : List TransitionCall) (j : Job) (t : Nat)
    (h : j.started_at = some t) : (runCalls j cs).started_at = some t := by
  induction cs generalizing j with
  | nil => exact h
  | cons c cs ih => exact ih _ (update_status_keeps_started j c.now c.target c.err t h)

/-- On a job without `started_at`, one call either leaves it unset or is a
successful transition to `processing` that stamps it with the call time. -/
theorem update_status_fresh_step (j : Job) (now : Nat) (B : JobStatus) (err : Option String)
    (h : j.started_at = none) :
    (j.update_status now B err).snd.started_at = none ∨
    ((j.update_status now B err).snd.started_at = some now ∧ B = .processing ∧
      (j.update_status now B err).fst = true) := by
  cases hcan : JobStatus.can_transition_to j.status B
  · left; rw [update_status_invalid j now B err hcan]; exact h
  · rw [update_status_started_at j now B err hcan]
    by_cases hB : B = .processing ∧ j.started_at = none
    · exact Or.inr ⟨by rw [if_pos hB], hB.1, update_status_fst j now B err hcan⟩
    · left; rw [if_neg hB]; exact h

/-- C9: starting from a job whose `started_at` is unset, any sequence of
transition calls either never sets it, or there is a unique first call — a
successful transition into `processing` — that stamps it with that call's
time, and every later call leaves that stamp unchanged. -/
theorem C9_started_once (j : Job) (hfresh : j.started_at = none) (cs : List TransitionCall) :
    (runCalls j cs).started_at = none ∨
    ∃ pre c post, cs = pre ++ c :: post ∧
      (runCalls j pre).started_at = none ∧
      c.target = .processing ∧
      ((runCalls j pre).update_status c.now c.target c.err).fst = true ∧
      (runCalls j (pre ++ [c])).started_at = some c.now ∧
      (runCalls j cs).started_at = some c.now := by
  induction cs generalizing j with
  | nil => exact Or.inl hfresh
  | cons c cs ih =>
    rcases update_status_fresh_step j c.now c.target c.err hfresh with hnone | ⟨hset, htgt, hok⟩
    · rcases ih _ hnone with h1 | ⟨pre, c', post, heq, hpre, htgt', hok', hset', hend⟩
      · left; rw [runCalls_cons]; exact h1
      · right
        refine ⟨c :: pre, c', post, by simp [heq], ?_, htgt', ?_, ?_, ?_⟩
        · rw [runCalls_cons]; exact hpre
        · rw [runCalls_cons]; exact hok'
        · show (runCalls j (c :: (pre ++ [c']))).started_at = some c'.now
          rw [runCalls_cons]; exact hset'
        · rw [runCalls_cons]; exact hend
    · right
      refine ⟨[], c, cs, rfl, hfresh, htgt, hok, ?_, ?_⟩
      · show (runCalls j (c :: [])).started_at = some c.now
        rw [runCalls_cons, runCalls_nil]; exact hset
      · rw [runCalls_cons]; exact runCalls_keeps_started cs _ c.now hset

/-- Witness for C9: the fresh job run through queue-then-process. -/
theorem C9_witness :
    (runCalls freshJob [⟨1, .queued, none⟩, ⟨2, .processing, none⟩]).started_at = none ∨
    ∃ pre c post, [(⟨1, .queued, none⟩ : TransitionCall), ⟨2, .processing, none⟩]
        = pre ++ c :: post ∧
      (runCalls freshJob pre).started_at = none ∧
      c.target = .processing ∧
      ((runCalls freshJob pre).update_status c.now c.target c.err).fst = true ∧
      (runCalls freshJob (pre ++ [c])).started_at = some c.now ∧
      (runCalls freshJob [⟨1, .queued, none⟩, ⟨2, .processing, none⟩]).started_at
        = some c.now :=
  C9_started_once freshJob rfl [⟨1, .queued, none⟩, ⟨2, .processing, none⟩]

/-- C10: a successful `update_status` call changes only `status`,
`started_at`, `completed_at`, `progress` and `error_message`; every other
field is unchanged; moreover `progress` is unchanged unless the target is
`completed`, and `error_message` is unchanged when no non-empty message is
supplied. -/
theorem C10_frame_effect (j : Job) (now : Nat) (B : JobStatus) (err : Option String)
    (hok : (j.update_status now B err).fst = true) :
    ((j.update_status now B err).snd.id = j.id ∧
     (j.update_status now B err).snd.job_id = j.job_id ∧
     (j.update_status now B err).snd.filename = j.filename ∧
     (j.update_status now B err).snd.original_filename = j.original_filename ∧
     (j.update_status now B err).snd.file_size = j.file_size ∧
     (j.update_status now B err).snd.file_format = j.file_format ∧
     (j.update_status now B err).snd.file_path = j.file_path ∧
     (j.update_status now B err).snd.processing_phase = j.processing_phase ∧
     (j.update_status now B err).snd.estimated_completion = j.estimated_completion ∧
     (j.update_status now B err).snd.queue_position = j.queue_position ∧
     (j.update_status now B err).snd.can_cancel = j.can_cancel ∧
     (j.update_status now B err).snd.created_at = j.created_at ∧
     (j.update_status now B err).snd.expires_at = j.expires_at ∧
     (j.update_status now B err).snd.duration = j.duration ∧
     (j.update_status now B err).snd.sample_rate = j.sample_rate ∧
     (j.update_status now B err).snd.channels = j.channels ∧
     (j.update_status now B err).snd.language = j.language ∧
     (j.update_status now B err).snd.enable_diarization = j.enable_diarization ∧
     (j.update_status now B err).snd.model = j.model) ∧
    (B ≠ .completed → (j.update_status now B err).snd.progress = j.progress) ∧
    ((err = none ∨ err = some "") →
      (j.update_status now B err).snd.error_message = j.error_message) := by
  have hcan : JobStatus.can_transition_to j.status B = true :=
    (update_status_fst_iff j now B err).1 hok
  refine ⟨update_status_frame j now B err hcan, fun hB => ?_, fun he => ?_⟩
  · rw [update_status_progress j now B err hcan, if_neg hB]
  · rw [update_status_error_message j now B err hcan]
    rcases he with he | he <;> simp [he]

/-- Witness for C10: queueing the fresh job (no message) leaves identity,
progress and error message untouched. -/
theorem C10_witness :
    (freshJob.update_status 4 .queued none).snd.id = freshJob.id ∧
    (freshJob.update_status 4 .queued none).snd.progress = freshJob.progress ∧
    (freshJob.update_status 4 .queued none).snd.error_message = freshJob.error_message :=
  ⟨(C10_frame_effect freshJob 4 .queued none (by decide)).1.1,
   (C10_frame_effect freshJob 4 .queued none (by decide)).2.1 (by decide),
   (C10_frame_effect freshJob 4 .queued none (by decide)).2.2 (Or.inl rfl)⟩

/-! ### Progress estimator -/

/-- Truncation toward zero of a rational, modelling Python `int(...)`
applied to a non-negative float expression. -/
def pyInt (q : ℚ) : ℤ := q.num.tdiv q.den

/-- Embeds `ProgressService.estimate_processing_time`
(progress_service.py lines 15-46).  `historical_avg` stands for the result
of `ProcessingHistory.get_average_processing_time` (`none` when no sample
lies in the matching size window); the float literal 1.2 is modelled by the
rational 6/5.  File sizes and durations are rationals. -/
def estimate_processing_time (historical_avg : Option ℚ) (file_size_mb : ℚ) : ℤ :=
  match historical_avg with
  | some avg => pyInt (avg * (6 / 5))
  | none =>
    let base_time := file_size_mb * 90
    let min_time : ℤ := 30
    let max_time : ℤ := 1800
    max min_time (min (pyInt base_time) max_time)

/-- On non-negative rationals, truncation agrees with the floor. -/
theorem pyInt_eq_floor (q : ℚ) (h : 0 ≤ q) : pyInt q = ⌊q⌋ := by
  unfold pyInt
  rw [Int.tdiv_eq_ediv (Rat.num_nonneg.2 h) (Int.natCast_nonneg q.den)]
  exact Rat.floor_def.symm

/-- C4: in the no-history fallback path, the estimate is the truncation of
`90 * x` clamped to `[30, 1800]`; it always lies in `[30, 1800]`, is
non-decreasing in the file size, and equals 900 seconds at 10 MB. -/
theorem C4_estimate_fallback :
    (∀ x : ℚ, 0 ≤ x →
      estimate_processing_time none x = max 30 (min (pyInt (x * 90)) 1800) ∧
      30 ≤ estimate_processing_time none x ∧
      estimate_processing_time none x ≤ 1800) ∧
    (∀ x y : ℚ, 0 ≤ x → x ≤ y →
      estimate_processing_time none x ≤ estimate_processing_time none y) ∧
    estimate_processing_time none 10 = 900 := by
  refine ⟨fun x _ => ⟨rfl, le_max_left _ _, max_le (by norm_num) (min_le_right _ _)⟩,
    fun x y hx hxy => ?_, ?_⟩
  case refine_2 =>
    show max 30 (min (pyInt (10 * 90)) 1800) = 900
    rw [pyInt_eq_floor _ (by norm_num)]
    norm_num
  show max 30 (min (pyInt (x * 90)) 1800) ≤ max 30 (min (pyInt (y * 90)) 1800)
  have hx90 : (0 : ℚ) ≤ x * 90 := by positivity
  have hy90 : (0 : ℚ) ≤ y * 90 := le_trans hx90 (by gcongr)
  have hmono : pyInt (x * 90) ≤ pyInt (y * 90) := by
    rw [pyInt_eq_floor _ hx90, pyInt_eq_floor _ hy90]
    exact Int.floor_le_floor (by gcongr)
  exact max_le_max le_rfl (min_le_min hmono le_rfl)

/-- Witness for C4: size 10 MB gives bounds and the concrete value. -/
theorem C4_witness :
    (30 ≤ estimate_processing_time none 10 ∧ estimate_processing_time none 10 ≤ 1800) ∧
    estimate_processing_time none 5 ≤ estimate_processing_time none 10 ∧
    estimate_processing_time none 10 = 900 :=
  ⟨⟨(C4_estimate_fallback.1 10 (by norm_num)).2.1,
    (C4_estimate_fallback.1 10 (by norm_num)).2.2⟩,
   C4_estimate_fallback.2.1 5 10 (by norm_num) (by norm_num),
   C4_estimate_fallback.2.2⟩

/-! ### Task retry policy -/

/-- Exception classes distinguished by `BaseProcessingTask.should_retry`
(base.py lines 142-166): the three non-retryable classes, and transient
provider errors (network error, provider 5xx, timeout). -/
inductive PyExc where
  | valueError (msg : String)
  | fileNotFoundError (msg : String)
  | permissionError (msg : String)
  | transientError (msg : String)
deriving DecidableEq, Repr

/-- The `non_retryable` tuple test of should_retry (base.py 153-159). -/
def PyExc.non_retryable : PyExc → Bool
  | .valueError _ => true
  | .fileNotFoundError _ => true
  | .permissionError _ => true
  | .transientError _ => false

/-- Embeds `BaseProcessingTask.should_retry` (base.py lines 142-166).
`retries` is `self.request.retries`, the number of retries performed so
far (0 during the first attempt); `maxRetries` is `self.max_retries`,
configured as 3 by `retry_kwargs` (base.py line 19). -/
def should_retry (retries maxRetries : Nat) (exc : PyExc) : Bool :=
  if exc.non_retryable then false
  else if retries ≥ maxRetries then false
  else true

/-- The retry loop of a task whose every attempt may raise: the attempt
executing with retry counter `retries` is `attempt retries`; on an
exception the task is re-run with the counter bumped when `should_retry`
allows it, and otherwise fails with that exception. -/
def runWithRetries {A : Type} (attempt : Nat → Except PyExc A) (maxRetries : Nat)
    (retries : Nat) : Except PyExc A :=
  match attempt retries with
  | .ok a => .ok a
  | .error e =>
    if h : should_retry retries maxRetries e = true then
      runWithRetries attempt maxRetries (retries + 1)
    else .error e
termination_by maxRetries + 1 - retries
decreasing_by
  simp [should_retry] at h
  omega

/-- The scenario of the claim: the attempts running with retry counters
0, 1 and 2 raise a transient provider error and the next attempt (the
fourth execution) succeeds. -/
def scenarioAttempt : Nat → Except PyExc String :=
  fun r => if r < 3 then .error (.transientError "provider 5xx") else .ok "transcript"

/-- A pipeline whose every attempt raises a transient error carrying its
retry counter. -/
def alwaysFailAttempt : Nat → Except PyExc String :=
  fun r => .error (.transientError (toString r))

/-- C3 counterexample: with max-retries 3, three transient failures
followed by a successful fourth attempt end in success, not `Failed`: the
retry counter reaches only 2 before the third retry is granted, so the
fourth attempt is reached. -/
theorem C3_counterexample :
    runWithRetries scenarioAttempt 3 0 = .ok "transcript" := by
  simp [runWithRetries, scenarioAttempt, should_retry, PyExc.non_retryable]

/-- C3 amended: with max-retries 3 a transient failure is retried exactly
while the retry counter is below 3, so the claim's scenario (three
transient failures, then success) succeeds on its fourth attempt; retries
are exhausted only when a fourth failure occurs, and then the job fails
with that last error. -/
theorem C3_amended :
    runWithRetries scenarioAttempt 3 0 = .ok "transcript" ∧
    (∀ r m, should_retry r 3 (.transientError m) = true ↔ r < 3) ∧
    runWithRetries alwaysFailAttempt 3 0 = .error (.transientError "3") := by
  refine ⟨?_, fun r m => ?_, ?_⟩
  · simp [runWithRetries, scenarioAttempt, should_retry, PyExc.non_retryable]
  · simp [should_retry, PyExc.non_retryable]
  · simp [runWithRetries, alwaysFailAttempt, should_retry, PyExc.non_retryable]
    rfl

/-! ### Association-list primitives (Python dict operations) -/

/-- Dictionary lookup: `d.get(k)`. -/
def lookupA {α : Type} : List (String × α) → String → Option α
  | [], _ => none
  | p :: l, k => if p.fst = k then some p.snd else lookupA l k

/-- Dictionary key removal: `d.pop(k, None)`. -/
def removeA {α : Type} : List (String × α) → String → List (String × α)
  | [], _ => []
  | p :: l, k => if p.fst = k then removeA l k else p :: removeA l k

/-- Dictionary assignment: `d[k] = v`. -/
def insertA {α : Type} (l : List (String × α)) (k : String) (v : α) :
    List (String × α) :=
  (k, v) :: removeA l k

theorem removeA_keys {α : Type} (l : List (String × α)) (k : String) :
    ∀ p ∈ removeA l k, p.fst ≠ k := by
  induction l with
  | nil => simp [removeA]
  | cons q l ih =>
    intro p hp
    by_cases hq : q.fst = k
    · rw [removeA, if_pos hq] at hp
      exact ih p hp
    · rw [removeA, if_neg hq] at hp
      rcases List.mem_cons.mp hp with h | h
      · subst h; exact hq
      · exact ih p h

theorem lookupA_none {α : Type} (l : List (String × α)) (k : String)
    (h : ∀ p ∈ l, p.fst ≠ k) : lookupA l k = none := by
  induction l with
  | nil => rfl
  | cons q l ih =>
    rw [lookupA, if_neg (h q (List.mem_cons_self q l))]
    exact ih fun p hp => h p (List.mem_cons_of_mem q hp)

/-! ### Values stored through the key-value interface -/

/-- Python values flowing through `GracefulRedisService`: strings, ints,
floats (idealized as their decimal value `m * 10 ^ e`, without binary
rounding), bools, None, the float constants NaN and the two signed
infinities, and the
complex shapes (lists, dicts with string keys) that the service
serializes. -/
inductive Val where
  | vint (n : Int)
  | vfloat (m : Int) (e : Int)
  | vbool (b : Bool)
  | vnull
  | vnan
  | vinf (neg : Bool)
  | vstr (s : String)
  | vlist (xs : List Val)
  | vmap (ms : List (String × Val))
deriving Repr

/-- The `isinstance(value, (dict, list))` test of graceful_redis.py
line 206. -/
def Val.isComplex : Val → Bool
  | .vlist _ => true
  | .vmap _ => true
  | _ => false

/-! ### The JSON text format (`json.dumps` / `json.loads`)

The Python standard `json` module is a library collaborator of the
service (graceful_redis.py lines 206-207 and 253-257), modelled here over
the value shapes of `Val`: `dumps` with its default separators
(`", "` and `": "`); `loads` as a recursive-descent parser of the full
Python grammar — strings, numbers with optional fraction and exponent
parts and the leading-zero rule of the scanner regex
`(-?(?:0|[1-9]\d*))(\.\d+)?([eE][-+]?\d+)?`, `true`/`false`/`null`, the
constants `NaN`/`Infinity`/`-Infinity`, arrays, objects, and the four
whitespace characters (space, tab, line feed, carriage return).
Simplifications, each only widening what the parser accepts or narrowing
what the printer emits (never making the parser reject input that Python
parses): `dumps` escapes only the quote and backslash characters, `loads`
undoes exactly those escapes and accepts raw control characters, and a
float is printed in exact `mantissa e exponent` form rather than Python's
equivalent shortest decimal.  A brace character is written `'\x7b'` /
`'\x7d'` and the quote `'\x22'`. -/

/-- The decimal digit character of `d` (for `d ≤ 9`). -/
def digitChar : Nat → Char
  | 0 => '0'
  | 1 => '1'
  | 2 => '2'
  | 3 => '3'
  | 4 => '4'
  | 5 => '5'
  | 6 => '6'
  | 7 => '7'
  | 8 => '8'
  | _ => '9'

/-- Decimal digits of a natural number, most significant first. -/
def dumpNat (n : Nat) : List Char :=
  if n < 10 then [digitChar n]
  else dumpNat (n / 10) ++ [digitChar (n % 10)]
termination_by n
decreasing_by exact Nat.div_lt_self (by omega) (by norm_num)

/-- Decimal representation of an integer (`str(n)` in Python). -/
def dumpInt : Int → List Char
  | .ofNat n => dumpNat n
  | .negSucc n => '-' :: dumpNat (n + 1)

/-- Escapes quote and backslash characters of a string body. -/
def escChars : List Char → List Char
  | [] => []
  | c :: cs =>
    if c = '\x22' ∨ c = '\\' then '\\' :: c :: escChars cs
    else c :: escChars cs

/-- A JSON string literal. -/
def dumpStr (s : String) : List Char := '\x22' :: (escChars s.data ++ ['\x22'])

mutual
/-- Serialization of a value to a character list (`json.dumps`). -/
def dumpVal : Val → List Char
  | .vint n => dumpInt n
  | .vfloat m e => dumpInt m ++ 'e' :: dumpInt e
  | .vbool true => ['t', 'r', 'u', 'e']
  | .vbool false => ['f', 'a', 'l', 's', 'e']
  | .vnull => ['n', 'u', 'l', 'l']
  | .vnan => ['N', 'a', 'N']
  | .vinf false => ['I', 'n', 'f', 'i', 'n', 'i', 't', 'y']
  | .vinf true => '-' :: ['I', 'n', 'f', 'i', 'n', 'i', 't', 'y']
  | .vstr s => dumpStr s
  | .vlist xs => '[' :: (dumpElems xs ++ [']'])
  | .vmap ms => '\x7b' :: (dumpMems ms ++ ['\x7d'])

/-- Array elements joined by `", "`. -/
def dumpElems : List Val → List Char
  | [] => []
  | [x] => dumpVal x
  | x :: xs => dumpVal x ++ ',' :: ' ' :: dumpElems xs

/-- Object members `"key": value` joined by `", "`. -/
def dumpMems : List (String × Val) → List Char
  | [] => []
  | [(k, v)] => dumpStr k ++ ':' :: ' ' :: dumpVal v
  | (k, v) :: ms => dumpStr k ++ ':' :: ' ' :: dumpVal v ++ ',' :: ' ' :: dumpMems ms
end

/-- Serialization of a value to a string (`json.dumps`). -/
def jsonDumps (v : Val) : String := String.mk (dumpVal v)

/-- The whitespace characters `json.loads` skips between tokens. -/
def isJsonWs (c : Char) : Bool :=
  c == ' ' || c == '\t' || c == '\n' || c == '\r'

/-- Drops leading whitespace. -/
def skipWs : List Char → List Char
  | [] => []
  | c :: cs => if isJsonWs c then skipWs cs else c :: cs

/-- Consumes a maximal run of decimal digits into an accumulator. -/
def parseDigits : Nat → List Char → Nat × List Char
  | acc, [] => (acc, [])
  | acc, c :: cs =>
    if c.isDigit then parseDigits (10 * acc + (c.toNat - 48)) cs
    else (acc, c :: cs)

/-- Parses a non-empty digit run as a natural number (leading zeros
allowed — the exponent-part rule). -/
def readDigits1 : List Char → Option (Nat × List Char)
  | [] => none
  | c :: cs =>
    if c.isDigit then some (parseDigits (c.toNat - 48) cs)
    else none

/-- The integer part of a JSON number: `0 | [1-9][0-9]*` — after a single
leading `0` no further digits belong to the token. -/
def readNatNum : List Char → Option (Nat × List Char)
  | [] => none
  | c :: cs =>
    if c = '0' then some (0, cs)
    else if c.isDigit then some (parseDigits (c.toNat - 48) cs)
    else none

/-- Consumes a digit run, also counting the digits consumed. -/
def parseDigitsK : Nat → Nat → List Char → Nat × Nat × List Char
  | acc, k, [] => (acc, k, [])
  | acc, k, c :: cs =>
    if c.isDigit then parseDigitsK (10 * acc + (c.toNat - 48)) (k + 1) cs
    else (acc, k, c :: cs)

/-- The fraction part after the decimal point: at least one digit,
returned with its digit count. -/
def readFrac : List Char → Option (Nat × Nat × List Char)
  | [] => none
  | c :: cs => if c.isDigit then some (parseDigitsK (c.toNat - 48) 1 cs) else none

/-- The exponent part after `e`/`E`: an optional sign and at least one
digit. -/
def parseExpPart (cs : List Char) : Option (Int × List Char) :=
  if cs.head? = some '-' then
    (readDigits1 cs.tail).map fun p => (-(p.fst : Int), p.snd)
  else if cs.head? = some '+' then
    (readDigits1 cs.tail).map fun p => ((p.fst : Int), p.snd)
  else
    (readDigits1 cs).map fun p => ((p.fst : Int), p.snd)

/-- An unsigned JSON number: the integer part, then an optional fraction
and an optional exponent; a fraction or exponent makes the value a float
(`(ip + fv / 10 ^ fk) * 10 ^ ev = (ip * 10 ^ fk + fv) * 10 ^ (ev - fk)`).
An invalid fraction or exponent suffix is left unconsumed, as Python's
scanner regex leaves it. -/
def parseNumCore (cs : List Char) : Option (Val × List Char) :=
  match readNatNum cs with
  | none => none
  | some (ip, r1) =>
    match (if r1.head? = some '.' then readFrac r1.tail else none) with
    | some (fv, fk, r2) =>
      match (if r2.head? = some 'e' ∨ r2.head? = some 'E' then parseExpPart r2.tail
             else none) with
      | some (ev, r3) =>
        some (.vfloat ((ip : Int) * 10 ^ fk + (fv : Int)) (ev - (fk : Int)), r3)
      | none => some (.vfloat ((ip : Int) * 10 ^ fk + (fv : Int)) (-(fk : Int)), r2)
    | none =>
      match (if r1.head? = some 'e' ∨ r1.head? = some 'E' then parseExpPart r1.tail
             else none) with
      | some (ev, r3) => some (.vfloat (ip : Int) ev, r3)
      | none => some (.vint (ip : Int), r1)

/-- Consumes the exact expected characters. -/
def expectChars : List Char → List Char → Option (List Char)
  | [], rest => some rest
  | e :: es, c :: cs => if c = e then expectChars es cs else none
  | _ :: _, [] => none

/-- Negation applied by the leading minus sign of a number literal. -/
def negVal : Val → Val
  | .vint n => .vint (-n)
  | .vfloat m e => .vfloat (-m) e
  | v => v

/-- A JSON number or the constant `-Infinity`, with an optional leading
minus sign. -/
def parseNumber (cs : List Char) : Option (Val × List Char) :=
  if cs.head? = some '-' then
    if cs.tail.head? = some 'I' then
      (expectChars ['n', 'f', 'i', 'n', 'i', 't', 'y'] cs.tail.tail).map
        fun r => (Val.vinf true, r)
    else (parseNumCore cs.tail).map fun p => (negVal p.fst, p.snd)
  else parseNumCore cs

/-- Parses a string body up to its closing quote, undoing escapes. -/
def parseStrBody : List Char → Option (List Char × List Char)
  | [] => none
  | c :: cs =>
    if c = '\x22' then some ([], cs)
    else if c = '\\' then
      match cs with
      | [] => none
      | d :: cs1 => (parseStrBody cs1).map fun p => (d :: p.fst, p.snd)
    else (parseStrBody cs).map fun p => (c :: p.fst, p.snd)
termination_by cs => cs.length
decreasing_by all_goals simp +arith

mutual
/-- Parses one JSON value.  The fuel argument bounds nesting and list
length; any fuel at least the size of the value suffices. -/
def parseVal : Nat → List Char → Option (Val × List Char)
  | 0, _ => none
  | fuel + 1, cs =>
    match skipWs cs with
    | [] => none
    | c :: cs1 =>
      if c = '\x22' then
        (parseStrBody cs1).map fun p => (Val.vstr (String.mk p.fst), p.snd)
      else if c = '[' then
        let cs2 := skipWs cs1
        if cs2.head? = some ']' then some (.vlist [], cs2.tail)
        else (parseElems fuel cs2).map fun p => (Val.vlist p.fst, p.snd)
      else if c = '\x7b' then
        let cs2 := skipWs cs1
        if cs2.head? = some '\x7d' then some (.vmap [], cs2.tail)
        else (parseMems fuel cs2).map fun p => (Val.vmap p.fst, p.snd)
      else if c = 't' then
        (expectChars ['r', 'u', 'e'] cs1).map fun r => (Val.vbool true, r)
      else if c = 'f' then
        (expectChars ['a', 'l', 's', 'e'] cs1).map fun r => (Val.vbool false, r)
      else if c = 'n' then
        (expectChars ['u', 'l', 'l'] cs1).map fun r => (Val.vnull, r)
      else if c = 'N' then
        (expectChars ['a', 'N'] cs1).map fun r => (Val.vnan, r)
      else if c = 'I' then
        (expectChars ['n', 'f', 'i', 'n', 'i', 't', 'y'] cs1).map fun r => (Val.vinf false, r)
      else
        parseNumber (c :: cs1)

/-- Parses the elements of a non-empty array up to the closing bracket. -/
def parseElems : Nat → List Char → Option (List Val × List Char)
  | 0, _ => none
  | fuel + 1, cs =>
    match parseVal fuel cs with
    | none => none
    | some (v, r) =>
      let r1 := skipWs r
      if r1.head? = some ',' then
        (parseElems fuel (skipWs r1.tail)).map fun p => (v :: p.fst, p.snd)
      else if r1.head? = some ']' then some ([v], r1.tail)
      else none

/-- Parses the members of a non-empty object up to the closing brace. -/
def parseMems : Nat → List Char → Option (List (String × Val) × List Char)
  | 0, _ => none
  | fuel + 1, cs =>
    match skipWs cs with
    | [] => none
    | c :: cs1 =>
      if c = '\x22' then
        match parseStrBody cs1 with
        | none => none
        | some (kl, r) =>
          let r1 := skipWs r
          if r1.head? = some ':' then
            match parseVal fuel (skipWs r1.tail) with
            | none => none
            | some (v, r2) =>
              let r3 := skipWs r2
              if r3.head? = some ',' then
                (parseMems fuel (skipWs r3.tail)).map
                  fun p => ((String.mk kl, v) :: p.fst, p.snd)
              else if r3.head? = some '\x7d' then
                some ([(String.mk kl, v)], r3.tail)
              else none
          else none
      else none
end

/-- Deserialization (`json.loads`): parse a value and require only
whitespace after it. -/
def jsonLoads (s : String) : Option Val :=
  match parseVal (s.data.length + 1) s.data with
  | some (v, rest) => if skipWs rest = [] then some v else none
  | none => none

/-! ### The tiered key-value service -/

/-- Backend kinds of `GracefulRedisService` (graceful_redis.py 27-31);
`redis` covers the configured and localhost strategies. -/
inductive RedisBackend where
  | redis
  | fakeredis
  | memory
deriving DecidableEq, Repr

/-- State of `GracefulRedisService`: the selected backend, the byte-string
store behind Redis/FakeRedis, and the in-memory fallback dict with its
expiry timers (key, absolute fire time). -/
structure KVState where
  backend_type : RedisBackend
  redis_store : List (String × String)
  fallback_storage : List (String × Val)
  expiry_timers : List (String × ℚ)

/-- The byte string the Redis/FakeRedis path stores for a value
(graceful_redis.py 204-209): dicts and lists are first converted with
`json.dumps`; the Redis client then encodes a str as-is, an int or a
finite float as its decimal text, and NaN/infinities by their lower-case
`repr` (which `json.loads` does not read back), while a bool or None
raises `DataError` (`none` here), which the surrounding `except` turns
into a false return. -/
def redisEncode : Val → Option String
  | .vlist xs => some (jsonDumps (.vlist xs))
  | .vmap ms => some (jsonDumps (.vmap ms))
  | .vstr s => some s
  | .vint n => some (String.mk (dumpInt n))
  | .vfloat m e => some (String.mk (dumpVal (.vfloat m e)))
  | .vnan => some "nan"
  | .vinf neg => some (if neg then "-inf" else "inf")
  | .vbool _ => none
  | .vnull => none

/-- The value the Redis/FakeRedis path returns for a stored byte string
(graceful_redis.py 247-257): `json.loads` when it succeeds, the raw string
otherwise. -/
def redisReadVal (s : String) : Val :=
  match jsonLoads s with
  | some v => v
  | none => .vstr s

/-- Fires every pending `threading.Timer` whose deadline has been reached
by time `now`: each such timer pops its key from the fallback storage and
from the timer table (the `expire_key` closure, graceful_redis.py
222-224). -/
def fireDue (st : KVState) (now : ℚ) : KVState :=
  { st with
    fallback_storage := st.fallback_storage.filter
      fun kv => !(st.expiry_timers.any fun kd => kd.fst == kv.fst && decide (kd.snd ≤ now))
    expiry_timers := st.expiry_timers.filter fun kd => !(decide (kd.snd ≤ now)) }

/-- Embeds `GracefulRedisService.set` (graceful_redis.py 190-235).  On the
memory backend the timers whose deadline already passed are fired first
(they ran before this call in real time); a supplied TTL cancels the
pending timer of the key and schedules a fresh one at `now + ex` — a zero
TTL is falsy in `if ex:` and schedules nothing. -/
def KVState.set (st : KVState) (now : ℚ) (key : String) (value : Val)
    (ex : Option ℚ) : Bool × KVState :=
  match st.backend_type with
  | .redis | .fakeredis =>
    match redisEncode value with
    | some sv => (true, { st with redis_store := insertA st.redis_store key sv })
    | none => (false, st)
  | .memory =>
    let st1 := fireDue st now
    let st2 := { st1 with fallback_storage := insertA st1.fallback_storage key value }
    match ex with
    | some e =>
      if e = 0 then (true, st2)
      else
        (true, { st2 with
          expiry_timers := insertA (removeA st2.expiry_timers key) key (now + e) })
    | none => (true, st2)

/-- Embeds `GracefulRedisService.get` (graceful_redis.py 237-264): the
Redis/FakeRedis path decodes the stored byte string, the memory path reads
the fallback dict after the due timers fired. -/
def KVState.get (st : KVState) (now : ℚ) (key : String) : Option Val :=
  match st.backend_type with
  | .redis | .fakeredis =>
    match lookupA st.redis_store key with
    | none => none
    | some s => some (redisReadVal s)
  | .memory => lookupA (fireDue st now).fallback_storage key

theorem any_timers_removeA (l : List (String × ℚ)) (k : String) (u : ℚ) :
    ((removeA l k).any fun kd => kd.fst == k && decide (kd.snd ≤ u)) = false := by
  rw [List.any_eq_false]
  intro kd hkd
  simp [removeA_keys l k kd hkd]

/-- The explicit state produced by a memory-backend `set` with a non-zero
TTL. -/
theorem memory_set_ttl_state (st : KVState) (now : ℚ) (k : String) (v : Val) (e : ℚ)
    (hmem : st.backend_type = .memory) (hne : e ≠ 0) :
    st.set now k v (some e) =
      (true,
        { backend_type := st.backend_type
          redis_store := st.redis_store
          fallback_storage := insertA (fireDue st now).fallback_storage k v
          expiry_timers := insertA (removeA (fireDue st now).expiry_timers k) k (now + e) }) := by
  simp only [KVState.set, hmem]
  simp [hne, fireDue, hmem]

/-- C5: on the in-memory fallback backend, `set key value ttl` followed by
`get key` at a later time returns the value while less than the TTL has
elapsed, and returns absent once the TTL has elapsed, the removal being
performed by the scheduled expiry timer. -/
theorem C5_memory_ttl (st : KVState) (k : String) (v : Val) (ttl now t : ℚ)
    (hmem : st.backend_type = .memory) (hpos : 0 < ttl) :
    (t - now < ttl → (st.set now k v (some ttl)).snd.get t k = some v) ∧
    (ttl ≤ t - now → (st.set now k v (some ttl)).snd.get t k = none) := by
  have hne : ttl ≠ 0 := ne_of_gt hpos
  rw [memory_set_ttl_state st now k v ttl hmem hne]
  constructor
  · intro hlt
    have hA : ¬ (now + ttl ≤ t) := by intro hc; linarith
    simp only [KVState.get, hmem]
    simp [fireDue, insertA, hA, any_timers_removeA, lookupA]
  · intro hge
    have hA : now + ttl ≤ t := by linarith
    simp only [KVState.get, hmem]
    simp only [fireDue, insertA]
    rw [List.filter_cons_of_neg (by simp [hA])]
    apply lookupA_none
    intro p hp
    exact removeA_keys _ k p (List.mem_of_mem_filter hp)

/-- An empty service state on the memory fallback backend. -/
def emptyMemKV : KVState :=
  { backend_type := .memory
    redis_store := []
    fallback_storage := []
    expiry_timers := [] }

/-- Witness for C5: a 1-second TTL read back at 0.9 s and at 1.1 s. -/
theorem C5_witness :
    (emptyMemKV.set 0 "job" (.vstr "payload") (some 1)).snd.get (9 / 10) "job"
        = some (.vstr "payload") ∧
    (emptyMemKV.set 0 "job" (.vstr "payload") (some 1)).snd.get (11 / 10) "job" = none :=
  ⟨(C5_memory_ttl emptyMemKV "job" (.vstr "payload") 1 0 (9 / 10) rfl (by norm_num)).1
      (by norm_num),
   (C5_memory_ttl emptyMemKV "job" (.vstr "payload") 1 0 (11 / 10) rfl (by norm_num)).2
      (by norm_num)⟩

/-! ### Round-trip of the JSON model -/

theorem digitChar_isDigit (d : Nat) : (digitChar d).isDigit = true := by
  unfold digitChar
  split <;> decide

theorem digitChar_toNat (d : Nat) (h : d < 10) : (digitChar d).toNat - 48 = d := by
  interval_cases d <;> decide

theorem isDigit_ne {c : Char} (h : c.isDigit = true) (d : Char)
    (hd : d.isDigit = false) : c ≠ d := by
  intro he
  subst he
  rw [h] at hd
  cases hd

theorem dumpNat_head (n : Nat) : ∃ c t, dumpNat n = c :: t ∧ c.isDigit = true := by
  rw [dumpNat]
  split
  · exact ⟨digitChar n, [], rfl, digitChar_isDigit n⟩
  · obtain ⟨c, t, h, hd⟩ := dumpNat_head (n / 10)
    exact ⟨c, t ++ [digitChar (n % 10)], by rw [h]; rfl, hd⟩
termination_by n
decreasing_by exact Nat.div_lt_self (by omega) (by norm_num)

/-- Rest of input that does not continue a digit run. -/
def noDigitStart : List Char → Bool
  | [] => true
  | c :: _ => !c.isDigit

theorem parseDigits_noDigit (acc : Nat) (rest : List Char)
    (h : noDigitStart rest = true) : parseDigits acc rest = (acc, rest) := by
  cases rest with
  | nil => rfl
  | cons c cs =>
    simp only [noDigitStart, Bool.not_eq_true'] at h
    simp [parseDigits, h]

theorem parseDigits_dump (n : Nat) : ∀ acc rest,
    parseDigits acc (dumpNat n ++ rest) =
      parseDigits (acc * 10 ^ (dumpNat n).length + n) rest := by
  induction n using Nat.strong_induction_on with
  | _ n ih =>
    intro acc rest
    by_cases h : n < 10
    · rw [dumpNat, if_pos h]
      simp [parseDigits, digitChar_isDigit, digitChar_toNat n h]
      ring_nf
    · rw [dumpNat, if_neg h]
      rw [List.append_assoc, List.singleton_append]
      rw [ih (n / 10) (Nat.div_lt_self (by omega) (by norm_num))]
      have hm : n % 10 < 10 := Nat.mod_lt _ (by norm_num)
      simp [parseDigits, digitChar_isDigit, digitChar_toNat _ hm]
      have h2 : 10 * (n / 10) + n % 10 = n := by omega
      have harg : 10 * (acc * 10 ^ (dumpNat (n / 10)).length + n / 10) + n % 10 =
          acc * 10 ^ ((dumpNat (n / 10)).length + 1) + n := by
        calc 10 * (acc * 10 ^ (dumpNat (n / 10)).length + n / 10) + n % 10
            = acc * (10 ^ (dumpNat (n / 10)).length * 10) + (10 * (n / 10) + n % 10) := by
              ring
          _ = acc * 10 ^ ((dumpNat (n / 10)).length + 1) + n := by rw [h2, pow_succ]
      rw [harg]

theorem readDigits1_dump (n : Nat) (rest : List Char) (h : noDigitStart rest = true) :
    readDigits1 (dumpNat n ++ rest) = some (n, rest) := by
  obtain ⟨c, t, heq, hd⟩ := dumpNat_head n
  have hstep : parseDigits 0 (dumpNat n ++ rest) = parseDigits (c.toNat - 48) (t ++ rest) := by
    rw [heq]
    simp [parseDigits, hd]
  rw [heq, List.cons_append, readDigits1, if_pos hd, ← hstep, parseDigits_dump n 0 rest]
  simp [parseDigits_noDigit n rest h]

theorem digitChar_ne_zero (d : Nat) (h1 : 1 ≤ d) (h2 : d < 10) : digitChar d ≠ '0' := by
  interval_cases d <;> decide

theorem dumpNat_head_pos (n : Nat) (hn : 0 < n) :
    ∃ c t, dumpNat n = c :: t ∧ c.isDigit = true ∧ c ≠ '0' := by
  rw [dumpNat]
  split
  · exact ⟨digitChar n, [], rfl, digitChar_isDigit n, digitChar_ne_zero n hn (by omega)⟩
  · obtain ⟨c, t, h, hd, hnz⟩ := dumpNat_head_pos (n / 10) (by omega)
    exact ⟨c, t ++ [digitChar (n % 10)], by rw [h]; rfl, hd, hnz⟩
termination_by n
decreasing_by exact Nat.div_lt_self (by omega) (by norm_num)

theorem readNatNum_dump (n : Nat) (rest : List Char) (h : noDigitStart rest = true) :
    readNatNum (dumpNat n ++ rest) = some (n, rest) := by
  by_cases h0 : n = 0
  · subst h0
    have hd0 : dumpNat 0 = ['0'] := by rw [dumpNat]; rfl
    rw [hd0, List.singleton_append, readNatNum, if_pos rfl]
  · obtain ⟨c, t, heq, hd, hnz⟩ := dumpNat_head_pos n (Nat.pos_of_ne_zero h0)
    have hstep : parseDigits 0 (dumpNat n ++ rest)
        = parseDigits (c.toNat - 48) (t ++ rest) := by
      rw [heq]
      simp [parseDigits, hd]
    rw [heq, List.cons_append, readNatNum, if_neg hnz, if_pos hd, ← hstep,
      parseDigits_dump n 0 rest]
    simp [parseDigits_noDigit n rest h]

theorem noDigitStart_cons (c : Char) (l : List Char) (h : c.isDigit = false) :
    noDigitStart (c :: l) = true := by
  simp [noDigitStart, h]

theorem isJsonWs_of_digit {c : Char} (h : c.isDigit = true) : isJsonWs c = false := by
  simp only [isJsonWs, Bool.or_eq_false_iff, beq_eq_false_iff_ne]
  exact ⟨⟨⟨isDigit_ne h ' ' (by decide), isDigit_ne h '\t' (by decide)⟩,
    isDigit_ne h '\n' (by decide)⟩, isDigit_ne h '\r' (by decide)⟩

/-- Rest of input that cannot extend a number token: no digit and no
fraction or exponent marker at its head. -/
def numBoundary : List Char → Bool
  | [] => true
  | c :: _ => !(c.isDigit || c == '.' || c == 'e' || c == 'E')

theorem numBoundary_head (rest : List Char) (h : numBoundary rest = true) :
    noDigitStart rest = true ∧ ¬ rest.head? = some '.' ∧
      ¬ rest.head? = some 'e' ∧ ¬ rest.head? = some 'E' := by
  cases rest with
  | nil => simp [noDigitStart]
  | cons c cs =>
    simp only [numBoundary, Bool.not_eq_eq_eq_not, Bool.not_true, Bool.or_eq_false_iff,
      beq_eq_false_iff_ne] at h
    obtain ⟨⟨⟨h1, h2⟩, h3⟩, h4⟩ := h
    exact ⟨by simp [noDigitStart, h1], by simp [h2], by simp [h3], by simp [h4]⟩

theorem numBoundary_cons (c : Char) (l : List Char) (h1 : c.isDigit = false)
    (h2 : c ≠ '.') (h3 : c ≠ 'e') (h4 : c ≠ 'E') : numBoundary (c :: l) = true := by
  simp [numBoundary, h1, h2, h3, h4]

theorem parseExpPart_dump (e : Int) (rest : List Char) (h : noDigitStart rest = true) :
    parseExpPart (dumpInt e ++ rest) = some (e, rest) := by
  cases e with
  | ofNat k =>
    obtain ⟨c, t, heq, hd⟩ := dumpNat_head k
    have h1 : c ≠ '-' := isDigit_ne hd '-' (by decide)
    have h2 : c ≠ '+' := isDigit_ne hd '+' (by decide)
    unfold parseExpPart
    rw [dumpInt, heq, List.cons_append]
    rw [if_neg (by simp [h1]), if_neg (by simp [h2])]
    rw [← List.cons_append, ← heq, readDigits1_dump k rest h]
    rfl
  | negSucc k =>
    unfold parseExpPart
    rw [dumpInt, List.cons_append]
    rw [if_pos (by simp)]
    simp only [List.tail_cons]
    rw [readDigits1_dump (k + 1) rest h]
    simp [Int.negSucc_eq]

theorem parseNumCore_int (n : Nat) (rest : List Char) (h : numBoundary rest = true) :
    parseNumCore (dumpNat n ++ rest) = some (.vint n, rest) := by
  obtain ⟨hnd, hdot, he, hE⟩ := numBoundary_head rest h
  unfold parseNumCore
  rw [readNatNum_dump n rest hnd]
  simp [hdot, he, hE]

theorem parseNumCore_exp (n : Nat) (e : Int) (rest : List Char) (h : numBoundary rest = true) :
    parseNumCore (dumpNat n ++ 'e' :: (dumpInt e ++ rest)) = some (.vfloat n e, rest) := by
  obtain ⟨hnd, _, _, _⟩ := numBoundary_head rest h
  unfold parseNumCore
  rw [readNatNum_dump n _ (noDigitStart_cons 'e' _ (by decide))]
  simp [parseExpPart_dump e rest hnd]

theorem dumpInt_head (n : Int) :
    ∃ c t, dumpInt n = c :: t ∧ (c.isDigit = true ∨ c = '-') := by
  cases n with
  | ofNat m =>
    obtain ⟨c, t, heq, hd⟩ := dumpNat_head m
    exact ⟨c, t, by rw [dumpInt, heq], Or.inl hd⟩
  | negSucc m =>
    exact ⟨'-', dumpNat (m + 1), rfl, Or.inr rfl⟩

theorem parseNumber_dump_int (n : Int) (rest : List Char) (h : numBoundary rest = true) :
    parseNumber (dumpInt n ++ rest) = some (.vint n, rest) := by
  cases n with
  | ofNat m =>
    obtain ⟨c, t, heq, hd⟩ := dumpNat_head m
    have h1 : c ≠ '-' := isDigit_ne hd '-' (by decide)
    unfold parseNumber
    rw [dumpInt, heq, List.cons_append]
    rw [if_neg (by simp [h1])]
    rw [← List.cons_append, ← heq, parseNumCore_int m rest h]
    rfl
  | negSucc m =>
    obtain ⟨c, t, heq, hd⟩ := dumpNat_head (m + 1)
    have hI : c ≠ 'I' := isDigit_ne hd 'I' (by decide)
    unfold parseNumber
    rw [dumpInt, List.cons_append]
    rw [if_pos (by simp)]
    simp only [List.tail_cons]
    rw [heq, List.cons_append, if_neg (by simp [hI]), ← List.cons_append, ← heq,
      parseNumCore_int (m + 1) rest h]
    simp [negVal, Int.negSucc_eq]

theorem parseNumber_dump_float (m e : Int) (rest : List Char) (h : numBoundary rest = true) :
    parseNumber (dumpInt m ++ 'e' :: (dumpInt e ++ rest)) = some (.vfloat m e, rest) := by
  cases m with
  | ofNat k =>
    obtain ⟨c, t, heq, hd⟩ := dumpNat_head k
    have h1 : c ≠ '-' := isDigit_ne hd '-' (by decide)
    unfold parseNumber
    rw [dumpInt, heq, List.cons_append]
    rw [if_neg (by simp [h1])]
    rw [← List.cons_append, ← heq, parseNumCore_exp k e rest h]
    rfl
  | negSucc k =>
    obtain ⟨c, t, heq, hd⟩ := dumpNat_head (k + 1)
    have hI : c ≠ 'I' := isDigit_ne hd 'I' (by decide)
    unfold parseNumber
    rw [dumpInt, List.cons_append]
    rw [if_pos (by simp)]
    simp only [List.tail_cons]
    rw [heq, List.cons_append, if_neg (by simp [hI]), ← List.cons_append, ← heq,
      parseNumCore_exp (k + 1) e rest h]
    simp [negVal, Int.negSucc_eq]

theorem parseStrBody_esc (l rest : List Char) :
    parseStrBody (escChars l ++ '\x22' :: rest) = some (l, rest) := by
  induction l with
  | nil => simp [escChars, parseStrBody.eq_def]
  | cons c cs ih =>
    by_cases hc : c = '\x22' ∨ c = '\\'
    · rw [escChars, if_pos hc]
      rw [List.cons_append, List.cons_append, parseStrBody.eq_def]
      simp [ih]
    · push_neg at hc
      rw [escChars, if_neg (by tauto)]
      rw [List.cons_append, parseStrBody.eq_def]
      simp [hc.1, hc.2, ih]

theorem numHead_ok {c : Char} (hc : c.isDigit = true ∨ c = '-') :
    isJsonWs c = false ∧ c ≠ ']' ∧ c ≠ '\x7d' := by
  rcases hc with hd | hm
  · exact ⟨isJsonWs_of_digit hd, isDigit_ne hd ']' (by decide),
      isDigit_ne hd '\x7d' (by decide)⟩
  · subst hm
    exact ⟨by decide, by decide, by decide⟩

theorem dumpVal_head (v : Val) :
    ∃ c t, dumpVal v = c :: t ∧ isJsonWs c = false ∧ c ≠ ']' ∧ c ≠ '\x7d' := by
  cases v with
  | vint n =>
    obtain ⟨c, t, heq, hc⟩ := dumpInt_head n
    obtain ⟨h1, h2, h3⟩ := numHead_ok hc
    exact ⟨c, t, by rw [dumpVal, heq], h1, h2, h3⟩
  | vfloat m e =>
    obtain ⟨c, t, heq, hc⟩ := dumpInt_head m
    obtain ⟨h1, h2, h3⟩ := numHead_ok hc
    exact ⟨c, t ++ 'e' :: dumpInt e, by rw [dumpVal, heq]; rfl, h1, h2, h3⟩
  | vbool b =>
    cases b with
    | true => exact ⟨'t', ['r', 'u', 'e'], by rw [dumpVal], by decide, by decide, by decide⟩
    | false =>
      exact ⟨'f', ['a', 'l', 's', 'e'], by rw [dumpVal], by decide, by decide, by decide⟩
  | vnull => exact ⟨'n', ['u', 'l', 'l'], by rw [dumpVal], by decide, by decide, by decide⟩
  | vnan => exact ⟨'N', ['a', 'N'], by rw [dumpVal], by decide, by decide, by decide⟩
  | vinf neg =>
    cases neg with
    | false =>
      exact ⟨'I', ['n', 'f', 'i', 'n', 'i', 't', 'y'], by rw [dumpVal], by decide,
        by decide, by decide⟩
    | true =>
      exact ⟨'-', ['I', 'n', 'f', 'i', 'n', 'i', 't', 'y'], by rw [dumpVal], by decide,
        by decide, by decide⟩
  | vstr s =>
    exact ⟨'\x22', escChars s.data ++ ['\x22'], by rw [dumpVal, dumpStr], by decide,
      by decide, by decide⟩
  | vlist xs => exact ⟨'[', dumpElems xs ++ [']'], by rw [dumpVal], by decide, by decide,
      by decide⟩
  | vmap ms => exact ⟨'\x7b', dumpMems ms ++ ['\x7d'], by rw [dumpVal], by decide, by decide,
      by decide⟩

theorem dumpElems_cons_ex (x : Val) (xs : List Val) :
    ∃ s, dumpElems (x :: xs) = dumpVal x ++ s := by
  cases xs with
  | nil => exact ⟨[], by simp [dumpElems]⟩
  | cons y ys => exact ⟨',' :: ' ' :: dumpElems (y :: ys), rfl⟩

theorem dumpMems_cons_ex (k : String) (v : Val) (ms : List (String × Val)) :
    ∃ s, dumpMems ((k, v) :: ms) = dumpStr k ++ s := by
  cases ms with
  | nil => exact ⟨':' :: ' ' :: dumpVal v, by simp [dumpMems]⟩
  | cons m ms' => exact ⟨':' :: ' ' :: (dumpVal v ++ ',' :: ' ' :: dumpMems (m :: ms')), by
      rw [dumpMems] <;> simp⟩

mutual
/-- Node-count measure of a value; it bounds the parser fuel needed. -/
def valSize : Val → Nat
  | .vint _ => 1
  | .vfloat _ _ => 1
  | .vbool _ => 1
  | .vnull => 1
  | .vnan => 1
  | .vinf _ => 1
  | .vstr _ => 1
  | .vlist xs => elemsSize xs + 1
  | .vmap ms => memsSize ms + 1

def elemsSize : List Val → Nat
  | [] => 1
  | x :: xs => valSize x + elemsSize xs

def memsSize : List (String × Val) → Nat
  | [] => 1
  | (_, v) :: ms => valSize v + memsSize ms + 1
end

theorem valSize_pos (v : Val) : 1 ≤ valSize v := by
  cases v <;> simp [valSize]

theorem elemsSize_pos (xs : List Val) : 1 ≤ elemsSize xs := by
  cases xs with
  | nil => simp [elemsSize]
  | cons x xs =>
    have := valSize_pos x
    simp [elemsSize]
    omega

theorem memsSize_pos (ms : List (String × Val)) : 1 ≤ memsSize ms := by
  cases ms with
  | nil => simp [memsSize]
  | cons m ms =>
    obtain ⟨k, v⟩ := m
    simp [memsSize]

mutual
theorem valSize_le_len : (v : Val) → valSize v ≤ (dumpVal v).length
  | .vint n => by
    obtain ⟨c, t, heq, _⟩ := dumpInt_head n
    rw [dumpVal, heq]
    simp [valSize]
  | .vfloat m e => by
    rw [dumpVal]
    simp only [valSize, List.length_append, List.length_cons]
    omega
  | .vbool true => by
    rw [dumpVal]
    simp [valSize]
  | .vbool false => by
    rw [dumpVal]
    simp [valSize]
  | .vnull => by
    rw [dumpVal]
    simp [valSize]
  | .vnan => by
    rw [dumpVal]
    simp [valSize]
  | .vinf false => by
    rw [dumpVal]
    simp [valSize]
  | .vinf true => by
    rw [dumpVal]
    simp [valSize]
  | .vstr s => by
    rw [dumpVal, dumpStr]
    simp [valSize]
  | .vlist xs => by
    have h := elemsSize_le_len xs
    rw [dumpVal]
    simp only [valSize, List.length_cons, List.length_append]
    simp
    omega
  | .vmap ms => by
    have h := memsSize_le_len ms
    rw [dumpVal]
    simp only [valSize, List.length_cons, List.length_append]
    simp
    omega

theorem elemsSize_le_len : (xs : List Val) → elemsSize xs ≤ (dumpElems xs).length + 1
  | [] => by simp [elemsSize, dumpElems]
  | [x] => by
    have h := valSize_le_len x
    rw [dumpElems]
    simp [elemsSize]
    omega
  | x :: y :: ys => by
    have h1 := valSize_le_len x
    have h2 := elemsSize_le_len (y :: ys)
    rw [dumpElems]
    case x_2 => simp
    simp only [elemsSize] at h2 ⊢
    simp only [List.length_append, List.length_cons]
    omega

theorem memsSize_le_len : (ms : List (String × Val)) → memsSize ms ≤ (dumpMems ms).length + 1
  | [] => by simp [memsSize, dumpMems]
  | [(k, v)] => by
    have h := valSize_le_len v
    rw [dumpMems]
    simp [memsSize, dumpStr]
    omega
  | (k, v) :: m :: ms' => by
    have h1 := valSize_le_len v
    have h2 := memsSize_le_len (m :: ms')
    rw [dumpMems]
    case x_1 => simp
    simp only [memsSize] at h2 ⊢
    simp only [List.length_append, List.length_cons, dumpStr]
    omega
end

theorem skipWs_cons_of_ne (c : Char) (l : List Char) (h : isJsonWs c = false) :
    skipWs (c :: l) = c :: l := by
  simp [skipWs, h]

theorem skipWs_cons_space (l : List Char) : skipWs (' ' :: l) = skipWs l := by
  simp [skipWs, isJsonWs]

theorem parseVal_succ_str (g : Nat) (l : List Char) :
    parseVal (g + 1) ('\x22' :: l) =
      (parseStrBody l).map fun p => (Val.vstr (String.mk p.fst), p.snd) := by
  rw [parseVal.eq_def]
  simp [skipWs_cons_of_ne '\x22' l (by decide)]

theorem parseVal_succ_list (g : Nat) (l : List Char) :
    parseVal (g + 1) ('[' :: l) =
      (if (skipWs l).head? = some ']' then some (.vlist [], (skipWs l).tail)
       else (parseElems g (skipWs l)).map fun p => (Val.vlist p.fst, p.snd)) := by
  rw [parseVal.eq_def]
  simp [skipWs_cons_of_ne '[' l (by decide)]

theorem parseVal_succ_map (g : Nat) (l : List Char) :
    parseVal (g + 1) ('\x7b' :: l) =
      (if (skipWs l).head? = some '\x7d' then some (.vmap [], (skipWs l).tail)
       else (parseMems g (skipWs l)).map fun p => (Val.vmap p.fst, p.snd)) := by
  rw [parseVal.eq_def]
  simp [skipWs_cons_of_ne '\x7b' l (by decide)]

theorem parseVal_succ_num (g : Nat) (c : Char) (l : List Char)
    (hc : c.isDigit = true ∨ c = '-') :
    parseVal (g + 1) (c :: l) = parseNumber (c :: l) := by
  rw [parseVal.eq_def]
  rcases hc with hd | hm
  · simp [skipWs_cons_of_ne c l (isJsonWs_of_digit hd), isDigit_ne hd '\x22' (by decide),
      isDigit_ne hd '[' (by decide), isDigit_ne hd '\x7b' (by decide),
      isDigit_ne hd 't' (by decide), isDigit_ne hd 'f' (by decide),
      isDigit_ne hd 'n' (by decide), isDigit_ne hd 'N' (by decide),
      isDigit_ne hd 'I' (by decide)]
  · subst hm
    simp [skipWs_cons_of_ne '-' l (by decide)]

theorem dumpElems_cons_cons (x y : Val) (ys : List Val) :
    dumpElems (x :: y :: ys) = dumpVal x ++ ',' :: ' ' :: dumpElems (y :: ys) := by
  rw [dumpElems]
  simp

theorem dumpMems_cons_cons (k : String) (v : Val) (m : String × Val)
    (ms : List (String × Val)) :
    dumpMems ((k, v) :: m :: ms) =
      dumpStr k ++ ':' :: ' ' :: (dumpVal v ++ ',' :: ' ' :: dumpMems (m :: ms)) := by
  rw [dumpMems] <;> simp

theorem parseElems_succ (g : Nat) (cs : List Char) :
    parseElems (g + 1) cs =
      (match parseVal g cs with
       | none => none
       | some (v, r) =>
         if (skipWs r).head? = some ',' then
           (parseElems g (skipWs (skipWs r).tail)).map fun p => (v :: p.fst, p.snd)
         else if (skipWs r).head? = some ']' then some ([v], (skipWs r).tail)
         else none) := by
  rw [parseElems.eq_def]

theorem parseMems_succ (g : Nat) (cs : List Char) :
    parseMems (g + 1) cs =
      (match skipWs cs with
       | [] => none
       | c :: cs1 =>
         if c = '\x22' then
           match parseStrBody cs1 with
           | none => none
           | some (kl, r) =>
             if (skipWs r).head? = some ':' then
               match parseVal g (skipWs (skipWs r).tail) with
               | none => none
               | some (v, r2) =>
                 if (skipWs r2).head? = some ',' then
                   (parseMems g (skipWs (skipWs r2).tail)).map
                     fun p => ((String.mk kl, v) :: p.fst, p.snd)
                 else if (skipWs r2).head? = some '\x7d' then
                   some ([(String.mk kl, v)], (skipWs r2).tail)
                 else none
             else none
         else none) := by
  rw [parseMems.eq_def]

theorem skipWs_space_dumpVal (v : Val) (l : List Char) :
    skipWs (' ' :: (dumpVal v ++ l)) = dumpVal v ++ l := by
  obtain ⟨c, t, hdv, hsp, _, _⟩ := dumpVal_head v
  rw [skipWs_cons_space, hdv, List.cons_append, skipWs_cons_of_ne c _ hsp]

theorem skipWs_space_dumpElems (y : Val) (ys : List Val) (l : List Char) :
    skipWs (' ' :: (dumpElems (y :: ys) ++ l)) = dumpElems (y :: ys) ++ l := by
  obtain ⟨s, hds⟩ := dumpElems_cons_ex y ys
  rw [hds, List.append_assoc, skipWs_space_dumpVal, ← List.append_assoc]

theorem skipWs_space_dumpMems (m : String × Val) (ms : List (String × Val)) (l : List Char) :
    skipWs (' ' :: (dumpMems (m :: ms) ++ l)) = dumpMems (m :: ms) ++ l := by
  obtain ⟨k, v⟩ := m
  obtain ⟨s, hds⟩ := dumpMems_cons_ex k v ms
  rw [hds, dumpStr]
  simp only [List.cons_append, List.append_assoc]
  rw [skipWs_cons_space, skipWs_cons_of_ne '\x22' _ (by decide)]

/-- Printing with `dumpVal` and re-parsing with fuel at least the value's
size yields the value back, with the rest of the input untouched. -/
theorem parse_dump_fuel (fuel : Nat) :
    (∀ v rest, valSize v ≤ fuel → numBoundary rest = true →
      parseVal fuel (dumpVal v ++ rest) = some (v, rest)) ∧
    (∀ xs rest, xs ≠ [] → elemsSize xs ≤ fuel → numBoundary rest = true →
      parseElems fuel (dumpElems xs ++ ']' :: rest) = some (xs, rest)) ∧
    (∀ ms rest, ms ≠ [] → memsSize ms ≤ fuel → numBoundary rest = true →
      parseMems fuel (dumpMems ms ++ '\x7d' :: rest) = some (ms, rest)) := by
  induction fuel with
  | zero =>
    refine ⟨fun v _ hsz _ => absurd hsz (by have := valSize_pos v; omega),
            fun xs _ _ hsz _ => absurd hsz (by have := elemsSize_pos xs; omega),
            fun ms _ _ hsz _ => absurd hsz (by have := memsSize_pos ms; omega)⟩
  | succ g ih =>
    obtain ⟨ihV, ihE, ihM⟩ := ih
    refine ⟨?_, ?_, ?_⟩
    · intro v rest hsz hnd
      cases v with
      | vint n =>
        obtain ⟨c, t, heq, hc⟩ := dumpInt_head n
        rw [dumpVal, heq, List.cons_append, parseVal_succ_num g c (t ++ rest) hc,
          ← List.cons_append, ← heq, parseNumber_dump_int n rest hnd]
      | vfloat m e =>
        obtain ⟨c, t, heq, hc⟩ := dumpInt_head m
        rw [dumpVal, List.append_assoc, List.cons_append, heq, List.cons_append,
          parseVal_succ_num g c (t ++ ('e' :: (dumpInt e ++ rest))) hc,
          ← List.cons_append, ← heq, parseNumber_dump_float m e rest hnd]
      | vbool b =>
        cases b with
        | true =>
          rw [dumpVal, parseVal.eq_def]
          simp [skipWs, isJsonWs, expectChars]
        | false =>
          rw [dumpVal, parseVal.eq_def]
          simp [skipWs, isJsonWs, expectChars]
      | vnull =>
        rw [dumpVal, parseVal.eq_def]
        simp [skipWs, isJsonWs, expectChars]
      | vnan =>
        rw [dumpVal, parseVal.eq_def]
        simp [skipWs, isJsonWs, expectChars]
      | vinf neg =>
        cases neg with
        | false =>
          rw [dumpVal, parseVal.eq_def]
          simp [skipWs, isJsonWs, expectChars]
        | true =>
          rw [dumpVal, parseVal.eq_def]
          simp [skipWs, isJsonWs, expectChars, parseNumber]
      | vstr s =>
        rw [dumpVal, dumpStr, List.cons_append, parseVal_succ_str, List.append_assoc,
          List.singleton_append, parseStrBody_esc]
        rfl
      | vlist xs =>
        cases xs with
        | nil =>
          rw [dumpVal]
          simp only [dumpElems, List.nil_append, List.cons_append, List.singleton_append]
          rw [parseVal_succ_list]
          rw [skipWs_cons_of_ne ']' _ (by decide)]
          simp
        | cons x xs' =>
          have hszE : elemsSize (x :: xs') ≤ g := by
            simp only [valSize] at hsz
            omega
          obtain ⟨s, hds⟩ := dumpElems_cons_ex x xs'
          obtain ⟨c, t, hdv, hsp, hrb, hbr2⟩ := dumpVal_head x
          rw [dumpVal, List.cons_append, parseVal_succ_list, List.append_assoc,
            List.singleton_append]
          have hhead : skipWs (dumpElems (x :: xs') ++ ']' :: rest)
              = dumpElems (x :: xs') ++ ']' :: rest := by
            rw [hds, hdv, List.cons_append, List.cons_append, skipWs_cons_of_ne _ _ hsp]
          rw [hhead]
          have hh2 : ¬ (dumpElems (x :: xs') ++ ']' :: rest).head? = some ']' := by
            rw [hds, hdv]
            simp [hrb]
          rw [if_neg hh2, ihE (x :: xs') rest (by simp) hszE hnd]
          rfl
      | vmap ms =>
        cases ms with
        | nil =>
          rw [dumpVal]
          simp only [dumpMems, List.nil_append, List.cons_append, List.singleton_append]
          rw [parseVal_succ_map]
          rw [skipWs_cons_of_ne '\x7d' _ (by decide)]
          simp
        | cons m ms' =>
          obtain ⟨k, v⟩ := m
          have hszM : memsSize ((k, v) :: ms') ≤ g := by
            simp only [valSize] at hsz
            omega
          obtain ⟨s, hds⟩ := dumpMems_cons_ex k v ms'
          rw [dumpVal, List.cons_append, parseVal_succ_map, List.append_assoc,
            List.singleton_append]
          have hhead : skipWs (dumpMems ((k, v) :: ms') ++ '\x7d' :: rest)
              = dumpMems ((k, v) :: ms') ++ '\x7d' :: rest := by
            rw [hds, dumpStr]
            simp only [List.cons_append]
            rw [skipWs_cons_of_ne '\x22' _ (by decide)]
          rw [hhead]
          have hh2 : ¬ (dumpMems ((k, v) :: ms') ++ '\x7d' :: rest).head? = some '\x7d' := by
            rw [hds, dumpStr]
            simp
          rw [if_neg hh2, ihM ((k, v) :: ms') rest (by simp) hszM hnd]
          rfl
    · intro xs rest hne hsz hnd
      cases xs with
      | nil => exact absurd rfl hne
      | cons x xs' =>
        cases xs' with
        | nil =>
          have hszV : valSize x ≤ g := by
            simp only [elemsSize] at hsz
            omega
          have hde : dumpElems [x] = dumpVal x := by rw [dumpElems]
          rw [hde, parseElems_succ,
            ihV x (']' :: rest) hszV (numBoundary_cons ']' rest (by decide) (by decide) (by decide) (by decide))]
          simp [skipWs_cons_of_ne ']' rest (by decide)]
        | cons y ys =>
          have hszV : valSize x ≤ g := by
            simp only [elemsSize] at hsz
            have := elemsSize_pos ys
            have := valSize_pos y
            omega
          have hszE : elemsSize (y :: ys) ≤ g := by
            simp only [elemsSize] at hsz ⊢
            have := valSize_pos x
            omega
          rw [dumpElems_cons_cons, List.append_assoc]
          simp only [List.cons_append]
          rw [parseElems_succ,
            ihV x (',' :: ' ' :: (dumpElems (y :: ys) ++ ']' :: rest)) hszV
              (numBoundary_cons ',' _ (by decide) (by decide) (by decide) (by decide))]
          simp [skipWs_cons_of_ne ',' _ (by decide),
            skipWs_space_dumpElems y ys (']' :: rest),
            ihE (y :: ys) rest (by simp) hszE hnd]
    · intro ms rest hne hsz hnd
      cases ms with
      | nil => exact absurd rfl hne
      | cons m ms' =>
        obtain ⟨k, v⟩ := m
        cases ms' with
        | nil =>
          have hszV : valSize v ≤ g := by
            simp only [memsSize] at hsz
            omega
          have hdm : dumpMems [(k, v)] = dumpStr k ++ ':' :: ' ' :: dumpVal v := by
            rw [dumpMems]
          rw [hdm, dumpStr]
          simp only [List.cons_append, List.append_assoc, List.singleton_append]
          rw [parseMems_succ, skipWs_cons_of_ne '\x22' _ (by decide)]
          simp [parseStrBody_esc, skipWs_cons_of_ne ':' _ (by decide),
            skipWs_space_dumpVal v ('\x7d' :: rest),
            ihV v ('\x7d' :: rest) hszV (numBoundary_cons '\x7d' rest (by decide) (by decide) (by decide) (by decide)),
            skipWs_cons_of_ne '\x7d' _ (by decide)]
        | cons m2 ms2 =>
          have hszV : valSize v ≤ g := by
            simp only [memsSize] at hsz
            have := memsSize_pos ms2
            have := valSize_pos m2.snd
            omega
          have hszM : memsSize (m2 :: ms2) ≤ g := by
            simp only [memsSize] at hsz ⊢
            have := valSize_pos v
            omega
          rw [dumpMems_cons_cons, dumpStr]
          simp only [List.cons_append, List.append_assoc, List.singleton_append]
          rw [parseMems_succ, skipWs_cons_of_ne '\x22' _ (by decide)]
          simp [parseStrBody_esc, skipWs_cons_of_ne ':' _ (by decide),
            skipWs_space_dumpVal v (',' :: ' ' :: (dumpMems (m2 :: ms2) ++ '\x7d' :: rest)),
            ihV v (',' :: ' ' :: (dumpMems (m2 :: ms2) ++ '\x7d' :: rest)) hszV
              (numBoundary_cons ',' _ (by decide) (by decide) (by decide) (by decide)),
            skipWs_cons_of_ne ',' _ (by decide),
            skipWs_space_dumpMems m2 ms2 ('\x7d' :: rest),
            ihM (m2 :: ms2) rest (by simp) hszM hnd]

/-- Parsing undoes serialization: `json.loads` after `json.dumps`. -/
theorem jsonLoads_jsonDumps (v : Val) : jsonLoads (jsonDumps v) = some v := by
  have hfuel : valSize v ≤ (dumpVal v).length + 1 :=
    le_trans (valSize_le_len v) (Nat.le_succ _)
  have h := (parse_dump_fuel ((dumpVal v).length + 1)).1 v [] hfuel rfl
  rw [List.append_nil] at h
  show (match parseVal ((dumpVal v).length + 1) (dumpVal v) with
    | some (v, rest) => if skipWs rest = [] then some v else none
    | none => none) = some v
  rw [h]
  simp [skipWs]

theorem fireDue_no_due_timers (st : KVState) (now : ℚ) (kd : String × ℚ)
    (h : kd ∈ (fireDue st now).expiry_timers) : ¬ kd.snd ≤ now := by
  simp only [fireDue, List.mem_filter] at h
  simpa using h.2

/-- The values whose stored byte string decodes back to the value itself:
complex values, ints, and strings that do not themselves parse as JSON. -/
theorem redisEncode_reads (v : Val)
    (h : v.isComplex = true ∨ (∃ n, v = .vint n) ∨
      (∃ s, v = .vstr s ∧ jsonLoads s = none)) :
    ∃ sv, redisEncode v = some sv ∧ redisReadVal sv = v := by
  rcases h with hc | ⟨n, hn⟩ | ⟨s, hs, hnone⟩
  · cases v with
    | vlist xs =>
      refine ⟨jsonDumps (.vlist xs), rfl, ?_⟩
      unfold redisReadVal
      rw [jsonLoads_jsonDumps]
    | vmap ms =>
      refine ⟨jsonDumps (.vmap ms), rfl, ?_⟩
      unfold redisReadVal
      rw [jsonLoads_jsonDumps]
    | _ => simp [Val.isComplex] at hc
  · subst hn
    refine ⟨jsonDumps (.vint n), ?_, ?_⟩
    · show some (String.mk (dumpInt n)) = some (jsonDumps (.vint n))
      rw [jsonDumps, dumpVal]
    · unfold redisReadVal
      rw [jsonLoads_jsonDumps]
  · subst hs
    refine ⟨s, rfl, ?_⟩
    unfold redisReadVal
    rw [hnone]

/-- The explicit state produced by a memory-backend `set` without TTL. -/
theorem memory_set_nottl_state (st : KVState) (now : ℚ) (k : String) (v : Val)
    (hmem : st.backend_type = .memory) :
    st.set now k v none =
      (true,
        { backend_type := st.backend_type
          redis_store := st.redis_store
          fallback_storage := insertA (fireDue st now).fallback_storage k v
          expiry_timers := (fireDue st now).expiry_timers }) := by
  simp only [KVState.set, hmem]
  simp [fireDue, hmem]

/-- An empty service state on the Redis backend. -/
def emptyRedisKV : KVState :=
  { backend_type := .redis
    redis_store := []
    fallback_storage := []
    expiry_timers := [] }

/-- C6 counterexample: on the Redis backend the string value "123" is
stored raw, and `get` hands it to `json.loads`, which succeeds — the
caller receives the integer 123 instead of the original string. -/
theorem C6_counterexample :
    (emptyRedisKV.set 0 "cache" (.vstr "123") none).snd.get 0 "cache"
        = some (.vint 123) ∧
    Val.vstr "123" ≠ Val.vint 123 := by
  constructor
  · rfl
  · intro h
    exact Val.noConfusion h

/-- C6 amended: a stored value is returned in its original shape on the
memory backend always; on the Redis/FakeRedis backend, for complex values
(serialized and deserialized through JSON), for ints, and for strings that
do not themselves parse as JSON — a string that parses as JSON (such as
"123") comes back as the parsed value instead. -/
theorem C6_roundtrip (st : KVState) (now : ℚ) (k : String) (v : Val) :
    (st.backend_type = .memory → (st.set now k v none).snd.get now k = some v) ∧
    ((st.backend_type = .redis ∨ st.backend_type = .fakeredis) →
      (v.isComplex = true ∨ (∃ n, v = .vint n) ∨
        (∃ s, v = .vstr s ∧ jsonLoads s = none)) →
      (st.set now k v none).snd.get now k = some v) := by
  constructor
  · intro hmem
    have hany : ((fireDue st now).expiry_timers.any
        fun kd => kd.fst == k && decide (kd.snd ≤ now)) = false := by
      rw [List.any_eq_false]
      intro kd hkd
      have hnd := fireDue_no_due_timers st now kd hkd
      simp [hnd]
    rw [memory_set_nottl_state st now k v hmem]
    simp only [KVState.get, hmem]
    simp only [fireDue, insertA]
    rw [List.filter_cons_of_pos (by simp [hany]; intro a b _ h _; exact h)]
    simp [lookupA]
  · intro hb hv
    obtain ⟨sv, henc, hread⟩ := redisEncode_reads v hv
    have hset : st.set now k v none =
        (true, { st with redis_store := insertA st.redis_store k sv }) := by
      rcases hb with hb | hb <;> simp [KVState.set, hb, henc]
    rw [hset]
    have hget : ({ st with redis_store := insertA st.redis_store k sv }
        : KVState).get now k = some (redisReadVal sv) := by
      rcases hb with hb | hb <;> simp [KVState.get, hb, insertA, lookupA]
    rw [hget, hread]

/-- Witness for C6: round-trips on the memory backend, and on the Redis
backend for a map, an int and a non-JSON string. -/
theorem C6_witness :
    (emptyMemKV.set 0 "k" (.vstr "123") none).snd.get 0 "k" = some (.vstr "123") ∧
    (emptyRedisKV.set 0 "k" (.vmap [("a", .vint 1)]) none).snd.get 0 "k"
      = some (.vmap [("a", .vint 1)]) ∧
    (emptyRedisKV.set 0 "k" (.vint 42) none).snd.get 0 "k" = some (.vint 42) ∧
    (emptyRedisKV.set 0 "k" (.vstr "hello") none).snd.get 0 "k" = some (.vstr "hello") :=
  ⟨(C6_roundtrip emptyMemKV 0 "k" (.vstr "123")).1 rfl,
   (C6_roundtrip emptyRedisKV 0 "k" (.vmap [("a", .vint 1)])).2 (Or.inl rfl) (Or.inl rfl),
   (C6_roundtrip emptyRedisKV 0 "k" (.vint 42)).2 (Or.inl rfl) (Or.inr (Or.inl ⟨42, rfl⟩)),
   (C6_roundtrip emptyRedisKV 0 "k" (.vstr "hello")).2 (Or.inl rfl)
     (Or.inr (Or.inr ⟨"hello", rfl, rfl⟩))⟩

/-! ### Real-time notification fan-out -/

/-- Room membership of the push transport: the (connection sid, room)
pairs currently joined. -/
structure RTState where
  rooms : List (String × String)
deriving DecidableEq, Repr

/-- Membership add: `join_room(room)` for connection `sid` (set semantics). -/
def join_room (st : RTState) (sid room : String) : RTState :=
  if (sid, room) ∈ st.rooms then st else { rooms := (sid, room) :: st.rooms }

/-- Membership removal: `leave_room(room)` for connection `sid`. -/
def leave_room (st : RTState) (sid room : String) : RTState :=
  { rooms := st.rooms.filter fun p => !(p == (sid, room)) }

/-- Embeds `handle_job_status_subscription` (realtime.py lines 26-59):
without a job id, or when the job does not exist in `jobs`, only an error
event is emitted to the requesting connection; otherwise the connection
joins the job's room and immediately receives a status snapshot.  The
returned list holds (recipient sid, event name) deliveries. -/
def handle_job_status_subscription (jobs : List String) (st : RTState) (sid : String)
    (data : Option String) : RTState × List (String × String) :=
  match data with
  | none => (st, [(sid, "error")])
  | some job_id =>
    if job_id ∈ jobs then
      (join_room st sid job_id, [(sid, "job_status_update")])
    else
      (st, [(sid, "error")])

/-- Embeds `handle_job_status_unsubscription` (realtime.py lines 62-72). -/
def handle_job_status_unsubscription (st : RTState) (sid : String)
    (data : Option String) : RTState × List (String × String) :=
  match data with
  | none => (st, [])
  | some job_id => (leave_room st sid job_id, [(sid, "unsubscribed")])

/-- Embeds `emit_job_status_update` (realtime.py lines 75-84):
`socketio.emit(..., room=job_id)` delivers the payload to exactly the
connections currently joined to the job's room. -/
def emit_job_status_update (st : RTState) (job_id : String) (payload : String) :
    List (String × String) :=
  (st.rooms.filter fun p => p.snd == job_id).map fun p => (p.fst, payload)

theorem emit_mem_iff (st : RTState) (B payload c x : String) :
    (c, x) ∈ emit_job_status_update st B payload ↔
      ((c, B) ∈ st.rooms ∧ x = payload) := by
  simp only [emit_job_status_update, List.mem_map, List.mem_filter]
  constructor
  · rintro ⟨⟨pf, ps⟩, ⟨hmem, hsnd⟩, heq⟩
    simp only [beq_iff_eq] at hsnd
    injection heq with h1 h2
    subst h1
    subst h2
    subst hsnd
    exact ⟨hmem, rfl⟩
  · rintro ⟨hmem, rfl⟩
    exact ⟨(c, B), ⟨hmem, by simp⟩, rfl⟩

/-- C7: a status event published for job B is delivered exactly to the
connections joined to B's room (each carrying the published payload), so a
connection joined only to job A's room receives nothing published for a
different job B; and subscribing to job A adds at most the (sid, A)
membership. -/
theorem C7_room_isolation (st : RTState) (sid A B payload : String) :
    ((sid, payload) ∈ emit_job_status_update st B payload ↔ (sid, B) ∈ st.rooms) ∧
    (∀ c x, (c, x) ∈ emit_job_status_update st B payload →
      x = payload ∧ (c, B) ∈ st.rooms) ∧
    ((∀ r, (sid, r) ∈ st.rooms → r = A) → B ≠ A →
      ∀ x, (sid, x) ∉ emit_job_status_update st B payload) ∧
    (∀ jobs sid' p, p ∈ (handle_job_status_subscription jobs st sid' (some A)).fst.rooms →
      p ∈ st.rooms ∨ p = (sid', A)) := by
  refine ⟨?_, ?_, ?_, ?_⟩
  · constructor
    · intro h
      exact ((emit_mem_iff st B payload sid payload).1 h).1
    · intro h
      exact (emit_mem_iff st B payload sid payload).2 ⟨h, rfl⟩
  · intro c x h
    have := (emit_mem_iff st B payload c x).1 h
    exact ⟨this.2, this.1⟩
  · intro honly hBA x hx
    have hmem := ((emit_mem_iff st B payload sid x).1 hx).1
    exact hBA (honly B hmem)
  · intro jobs sid' p hp
    by_cases hj : A ∈ jobs
    · simp only [handle_job_status_subscription, if_pos hj] at hp
      unfold join_room at hp
      by_cases hm : (sid', A) ∈ st.rooms
      · rw [if_pos hm] at hp
        exact Or.inl hp
      · rw [if_neg hm] at hp
        rcases List.mem_cons.mp hp with h | h
        · exact Or.inr h
        · exact Or.inl h
    · simp only [handle_job_status_subscription, if_neg hj] at hp
      exact Or.inl hp

/-- Witness for C7: with connection c1 joined only to jobA's room, a jobB
event misses it and a jobA event reaches it. -/
theorem C7_witness :
    (∀ x, ("c1", x) ∉ emit_job_status_update (RTState.mk [("c1", "jobA")]) "jobB" "ev") ∧
    ("c1", "ev") ∈ emit_job_status_update (RTState.mk [("c1", "jobA")]) "jobA" "ev" :=
  ⟨(C7_room_isolation (RTState.mk [("c1", "jobA")]) "c1" "jobA" "jobB" "ev").2.2.1
      (by intro r hr; simpa using hr) (by decide),
   (C7_room_isolation (RTState.mk [("c1", "jobA")]) "c1" "jobA" "jobA" "ev").1.2 (by simp)⟩
